import Mathlib

/-!
Shallow embedding of the core pipeline of `src/main.py` (Mistral OCR viewer):
Markdown image-reference rewriting, OCR-result assembly, output-directory
naming, format classification, and the remote OCR client protocol.

Strings are modelled by Lean `String` (a wrapper around `List Char`); byte
strings by `List Nat`.  Python string primitives used by the source
(`str.replace`, `str.split`, `str.lower`, `"sep".join`, `os.path.join`,
`os.path.splitext`, `pathlib.Path.stem`) are embedded as executable Lean
functions below.  Filesystem writes are modelled as an explicit list of
(path, data) pairs; the remote service and the PIL image probe are modelled
as oracle parameters, since they are external to the repository.
-/

namespace MistralOCR

/-- Prefix test on character lists (used to embed substring matching). -/
def isPref : List Char → List Char → Bool
  | [], _ => true
  | _ :: _, [] => false
  | a :: as, b :: bs => a = b && isPref as bs

/-- Occurrence test: does `pat` occur as a contiguous sublist of `l`? -/
def occursB (pat : List Char) : List Char → Bool
  | [] => isPref pat []
  | c :: rest => isPref pat (c :: rest) || occursB pat rest

/-- Occurrence of `pat` as a substring of `s`. -/
def occursIn (pat s : String) : Bool := occursB pat.data s.data

/-- Python `str.split(sep)` for a one-character separator, on character
lists: splits on every occurrence of `sep`, keeping empty segments. -/
def splitOnCharL (sep : Char) : List Char → List (List Char)
  | [] => [[]]
  | c :: rest =>
    if c = sep then [] :: splitOnCharL sep rest
    else
      match splitOnCharL sep rest with
      | [] => [[c]]
      | h :: t => (c :: h) :: t

/-- Python `s.split(sep)` for a one-character separator. -/
def pySplit (sep : Char) (s : String) : List String :=
  (splitOnCharL sep s.data).map String.mk

/-- One replacement pass of Python `str.replace` (all non-overlapping
occurrences, scanning left to right), with explicit fuel; fuel equal to the
length of the subject string suffices since each step consumes at least one
character. -/
def replaceFuel (pat rep : List Char) : Nat → List Char → List Char
  | _, [] => []
  | 0, l => l
  | Nat.succ fuel, c :: rest =>
    if isPref pat (c :: rest) then
      match pat with
      | [] => c :: rest
      | _ :: pt => rep ++ replaceFuel pat rep fuel (rest.drop pt.length)
    else c :: replaceFuel pat rep fuel rest

/-- Python `s.replace(pat, rep)` for a non-empty pattern (every pattern the
source builds starts with the three characters `![` and `]`, so it is never
empty). -/
def pyReplace (s pat rep : String) : String :=
  String.mk (replaceFuel pat.data rep.data s.data.length s.data)

/-- Python `sep.join(l)`. -/
def pyJoin (sep : String) : List String → String
  | [] => ""
  | [x] => x
  | x :: xs => x ++ sep ++ pyJoin sep xs

/-- Python `str.lower` restricted to ASCII letters (every extension the
source compares against is ASCII). -/
def pyLower (s : String) : String := String.mk (s.data.map Char.toLower)

/-- Does the string start with the path separator `/`? -/
def startsWithSlash (s : String) : Bool :=
  match s.data with
  | [] => false
  | c :: _ => c = '/'

/-- Does the string end with the path separator `/`? -/
def endsWithSlash (s : String) : Bool :=
  match s.data.getLast? with
  | some c => c = '/'
  | none => false

/-- Python `os.path.join(a, b)` for two components (POSIX rules): an
absolute second component replaces the first; otherwise the two are joined
with a single `/` unless the first is empty or already ends in `/`. -/
def pathJoin (a b : String) : String :=
  if startsWithSlash b then b
  else if a = "" ∨ endsWithSlash a then a ++ b
  else a ++ "/" ++ b

/-- The part of `l` after the last occurrence of `sep` (the whole list when
`sep` does not occur). -/
def lastSegment (sep : Char) : List Char → List Char
  | [] => []
  | c :: rest =>
    if sep ∈ rest then lastSegment sep rest
    else if c = sep then rest
    else c :: rest

/-- Index of the last occurrence of `c` in `l`, if any. -/
def lastIdxOf (c : Char) : List Char → Option Nat
  | [] => none
  | a :: rest =>
    match lastIdxOf c rest with
    | some i => some (i + 1)
    | none => if a = c then some 0 else none

/-- Extension of a path basename, following `genericpath._splitext`: the
suffix starting at the last dot, provided some earlier character of the
basename is not a dot (so purely leading dots yield no extension). -/
def extOfBasename (base : List Char) : List Char :=
  let stripped := base.dropWhile (fun c => c = '.')
  match lastIdxOf '.' stripped with
  | some i => stripped.drop i
  | none => []

/-- The extension part of Python `os.path.splitext(p)` (POSIX separator). -/
def splitextExt (p : String) : String :=
  String.mk (extOfBasename (lastSegment '/' p.data))

/-- Path components in the sense of `pathlib`: split on `/`, dropping empty
components and `.` components. -/
def pathComponents (p : String) : List String :=
  ((splitOnCharL '/' p.data).map String.mk).filter (fun c => c ≠ "" ∧ c ≠ ".")

/-- `pathlib.PurePath.name`: the final path component (empty for a root or
empty path). -/
def pathName (p : String) : String :=
  match (pathComponents p).getLast? with
  | some n => n
  | none => ""

/-- `pathlib.PurePath.stem` applied to a basename: strip the suffix that
starts at the last dot, provided that dot is neither the first nor the last
character. -/
def stemOfName (name : List Char) : List Char :=
  match lastIdxOf '.' name with
  | some i => if 0 < i ∧ i + 1 < name.length then name.take i else name
  | none => name

/-- `pathlib.Path(p).stem`. -/
def pathStem (p : String) : String := String.mk (stemOfName (pathName p).data)

/-- Value of a base64 alphabet character. -/
def b64Val (c : Char) : Option Nat :=
  if 'A' ≤ c ∧ c ≤ 'Z' then some (c.toNat - 65)
  else if 'a' ≤ c ∧ c ≤ 'z' then some (c.toNat - 97 + 26)
  else if '0' ≤ c ∧ c ≤ '9' then some (c.toNat - 48 + 52)
  else if c = '+' then some 62
  else if c = '/' then some 63
  else none

/-- Decode canonically padded base64 character groups into bytes. -/
def b64Groups : List Char → Option (List Nat)
  | [] => some []
  | a :: b :: c :: d :: rest =>
    match b64Val a, b64Val b with
    | some va, some vb =>
      if c = '=' then
        if d = '=' ∧ rest = [] then some [va * 4 + vb / 16] else none
      else
        match b64Val c with
        | some vc =>
          if d = '=' then
            if rest = [] then some [va * 4 + vb / 16, vb % 16 * 16 + vc / 4]
            else none
          else
            match b64Val d with
            | some vd =>
              (b64Groups rest).map
                (fun t => (va * 4 + vb / 16) :: (vb % 16 * 16 + vc / 4) :: (vc % 4 * 64 + vd) :: t)
            | none => none
        | none => none
    | _, _ => none
  | _ => none

/-- `base64.b64decode` on canonically padded base64 input (the inline image
payloads the assembler decodes); malformed input yields `none`, modelling
the `binascii.Error` the Python call raises. -/
def b64decode (s : String) : Option (List Nat) := b64Groups s.data

/-- One embedded image of an OCR page: `img.id` and `img.image_base64`. -/
structure OCRImage where
  id : String
  image_base64 : String
  deriving DecidableEq

/-- One page of the OCR response: `page.markdown` and `page.images`. -/
structure OCRPage where
  markdown : String
  images : List OCRImage
  deriving DecidableEq

/-- The structured OCR response: an ordered list of pages. -/
structure OCRResponse where
  pages : List OCRPage
  deriving DecidableEq

/-- Data written to a file: raw bytes (mode `"wb"`) or text (mode `"w"`,
UTF-8). -/
inductive FileData where
  | bin (bytes : List Nat)
  | text (s : String)
  deriving DecidableEq

/-- Python `dict` insertion `d[k] = v` on an insertion-ordered association
list: an existing key keeps its position and gets the new value, a new key
is appended at the end. -/
def pyDictInsert (d : List (String × String)) (k v : String) : List (String × String) :=
  if (d.find? (fun p => p.1 = k)).isSome then
    d.map (fun p => if p.1 = k then (p.1, v) else p)
  else d ++ [(k, v)]

/-- `replace_images_in_markdown` from `src/main.py`: for each entry of the
(insertion-ordered) dict, replace every literal occurrence of
`![name](name)` with `![name](path)` by exact string substitution. -/
def replace_images_in_markdown (markdown_str : String) (images_dict : List (String × String)) : String :=
  images_dict.foldl
    (fun md p => pyReplace md ("![" ++ p.1 ++ "](" ++ p.1 ++ ")") ("![" ++ p.1 ++ "](" ++ p.2 ++ ")"))
    markdown_str

/-- The per-image loop of `save_ocr_results`: for each image, take
`img.image_base64.split(",")[1]` (an out-of-range index aborts, modelling
the `IndexError`), base64-decode it (failure aborts), record the write of
the decoded bytes to `images_dir/<id>.png`, and insert
`id ↦ images/<id>.png` into the page's dict.  `ws` and `d` accumulate the
writes performed and the dict built so far. -/
def processImagesAux (images_dir : String) :
    List OCRImage → List (String × FileData) → List (String × String) →
    Option (List (String × FileData) × List (String × String))
  | [], ws, d => some (ws, d)
  | img :: rest, ws, d =>
    ((pySplit ',' img.image_base64)[1]?).bind fun payload =>
      (b64decode payload).bind fun img_data =>
        processImagesAux images_dir rest
          (ws ++ [(pathJoin images_dir (img.id ++ ".png"), FileData.bin img_data)])
          (pyDictInsert d img.id ("images/" ++ img.id ++ ".png"))

/-- The per-page loop of `save_ocr_results`: each page starts from an empty
`page_images` dict, extracts its own images, rewrites its markdown with
that dict only, and appends the result to `all_markdowns` (`mds`). -/
def processPagesAux (images_dir : String) :
    List OCRPage → List (String × FileData) → List String →
    Option (List (String × FileData) × List String)
  | [], ws, mds => some (ws, mds)
  | page :: rest, ws, mds =>
    (processImagesAux images_dir page.images [] []).bind fun pr =>
      processPagesAux images_dir rest (ws ++ pr.1)
        (mds ++ [replace_images_in_markdown page.markdown pr.2])

/-- `save_ocr_results` from `src/main.py`: extract every page's embedded
images into `output_dir/images/`, rewrite each page's markdown with its own
page's dict, join the page texts with a blank line, and write the result to
`output_dir/complete.md`.  The returned pair is (list of file writes in
order, `markdown_content`); `none` models the exception raised on a
malformed payload. -/
def save_ocr_results (ocr_response : OCRResponse) (output_dir : String) :
    Option (List (String × FileData) × String) :=
  (processPagesAux (pathJoin output_dir "images") ocr_response.pages [] []).bind fun r =>
    let markdown_content := pyJoin "\n\n" r.2
    some (r.1 ++ [(pathJoin output_dir "complete.md", FileData.text markdown_content)],
      markdown_content)

/-- `SUPPORTED_IMAGE_EXTENSIONS` from `src/main.py`. -/
def SUPPORTED_IMAGE_EXTENSIONS : List String :=
  [".jpg", ".jpeg", ".png", ".gif", ".bmp", ".tiff", ".tif", ".webp"]

/-- `is_image_file` from `src/main.py`.  `sniff path` is an oracle for the
external PIL probe `Image.open(path).format is not None`, with any
exception already mapped to `false` (the source's `try/except` returns
`False` on every exception, so the probe is a total Boolean). -/
def is_image_file (sniff : String → Bool) (file_path : String) : Bool :=
  let ext := splitextExt (pyLower file_path)
  if SUPPORTED_IMAGE_EXTENSIONS.contains ext then sniff file_path else false

/-- `create_output_directory` from `src/main.py`: `now` is the
`datetime.now().strftime("%Y%m%d_%H%M%S")` second-resolution timestamp
string, passed explicitly. -/
def create_output_directory (now : String) (original_file_path : String) : String :=
  pathJoin "outputs" (now ++ "_" ++ pathStem original_file_path)

/-- Error taxonomy of the client: the explicit `FileNotFoundError`, any
error raised by the remote service, and the exception raised during
assembly of a malformed payload. -/
inductive PyErr where
  | fileNotFound (msg : String)
  | remoteServiceError (msg : String)
  | assemblyError
  deriving DecidableEq

/-- Observable events of one `process_pdf` run, in order: the three remote
calls (with the exact arguments the source passes) and each file write. -/
inductive Event where
  | upload (fileName : String) (content : List Nat) (purpose : String)
  | signedUrl (fileId : String) (expiry : Nat)
  | ocr (documentUrl : String) (model : String) (includeImageBase64 : Bool)
  | fileWrite (path : String) (data : FileData)
  deriving DecidableEq

/-- Is the event a remote (network) call? -/
def isNetCall : Event → Bool
  | Event.fileWrite _ _ => false
  | _ => true

/-- Is the event a file write? -/
def isWriteEvent : Event → Bool
  | Event.fileWrite _ _ => true
  | _ => false

/-- The local filesystem as seen by `process_pdf`: `Path(p).is_file()` and
`Path(p).read_bytes()`. -/
structure FS where
  isFile : String → Bool
  readBytes : String → List Nat

/-- The remote Mistral service, as the three endpoints `process_pdf` calls:
`client.files.upload` (file name and content, under a purpose tag, returns
a file id), `client.files.get_signed_url` (file id and expiry, returns a
URL), and `client.ocr.process` (document URL, model id, inline-image flag,
returns the structured response).  Each may fail with an error that
`process_pdf` propagates unmodified. -/
structure Svc where
  upload : String → List Nat → Except PyErr String
  getSignedUrl : String → Nat → Except PyErr String
  ocrProcess : String → String → Bool → Except PyErr OCRResponse

/-- `process_pdf` from `src/main.py`, for the call made by `process_file`
(an explicit `output_dir`, so the `output_dir is None` branch is not
taken).  Returns the ordered event trace together with either the
`(markdown_content, output_dir)` result or the propagated error.  Each
remote call is recorded as attempted before its outcome is examined. -/
def process_pdf (fs : FS) (svc : Svc) (pdf_path : String) (output_dir : String) :
    List Event × Except PyErr (String × String) :=
  if fs.isFile pdf_path = false then
    ([], Except.error (PyErr.fileNotFound ("文件不存在: " ++ pdf_path)))
  else
    let stem := pathStem pdf_path
    let content := fs.readBytes pdf_path
    match svc.upload stem content with
    | Except.error e => ([Event.upload stem content "ocr"], Except.error e)
    | Except.ok fileId =>
      match svc.getSignedUrl fileId 1 with
      | Except.error e =>
        ([Event.upload stem content "ocr", Event.signedUrl fileId 1], Except.error e)
      | Except.ok url =>
        match svc.ocrProcess url "mistral-ocr-latest" true with
        | Except.error e =>
          ([Event.upload stem content "ocr", Event.signedUrl fileId 1,
            Event.ocr url "mistral-ocr-latest" true], Except.error e)
        | Except.ok resp =>
          match save_ocr_results resp output_dir with
          | none =>
            ([Event.upload stem content "ocr", Event.signedUrl fileId 1,
              Event.ocr url "mistral-ocr-latest" true], Except.error PyErr.assemblyError)
          | some (ws, markdown_content) =>
            ([Event.upload stem content "ocr", Event.signedUrl fileId 1,
              Event.ocr url "mistral-ocr-latest" true] ++
              ws.map (fun w => Event.fileWrite w.1 w.2),
             Except.ok (markdown_content, output_dir))

/-- Spec-side definition (refinement target for claim C3), following the
spec's words: the payload data of a data-URI-style string is "the portion
after the first comma"; `none` when there is no comma. -/
def afterFirstCommaL : List Char → Option (List Char)
  | [] => none
  | c :: rest => if c = ',' then some rest else afterFirstCommaL rest

/-- Spec-side payload extraction on strings (see `afterFirstCommaL`). -/
def afterFirstComma (s : String) : Option String :=
  (afterFirstCommaL s.data).map String.mk

/-- Paths of the binary (image) file writes in a write list. -/
def binWritePaths (ws : List (String × FileData)) : List String :=
  ws.filterMap (fun w => match w.2 with | FileData.bin _ => some w.1 | FileData.text _ => none)

/-- All image identifiers of a page list, in page and image order. -/
def allImageIds : List OCRPage → List String
  | [] => []
  | p :: rest => p.images.map OCRImage.id ++ allImageIds rest

/-- The page dict built by `save_ocr_results` for one page: each image id
mapped to `images/<id>.png`, in first-insertion order. -/
def page_images_dict (imgs : List OCRImage) : List (String × String) :=
  imgs.foldl (fun d img => pyDictInsert d img.id ("images/" ++ img.id ++ ".png")) []

theorem isPref_mem : ∀ {a b : List Char}, isPref a b = true → ∀ c ∈ a, c ∈ b := by
  intro a
  induction a with
  | nil => intro b _ c hc; cases hc
  | cons x as ih =>
    intro b h c hc
    cases b with
    | nil => simp [isPref] at h
    | cons y bs =>
      simp only [isPref, Bool.and_eq_true, decide_eq_true_eq] at h
      cases hc with
      | head => exact h.1 ▸ List.mem_cons_self _ _
      | tail _ hc => exact List.mem_cons_of_mem _ (ih h.2 c hc)

theorem isPref_append_cancel : ∀ (k a b : List Char), isPref (k ++ a) (k ++ b) = isPref a b := by
  intro k a b
  induction k with
  | nil => rfl
  | cons x ks ih => simp [isPref, ih]

theorem splitOnCharL_ne_nil (sep : Char) (l : List Char) : splitOnCharL sep l ≠ [] := by
  cases l with
  | nil => simp [splitOnCharL]
  | cons c rest =>
    simp only [splitOnCharL]
    split
    · simp
    · split <;> simp

theorem splitOnCharL_of_not_mem (sep : Char) :
    ∀ (l : List Char), sep ∉ l → splitOnCharL sep l = [l] := by
  intro l
  induction l with
  | nil => intro _; rfl
  | cons c rest ih =>
    intro h
    have hc : ¬ c = sep := fun hh => h (hh ▸ List.mem_cons_self _ _)
    have hr : sep ∉ rest := fun hh => h (List.mem_cons_of_mem _ hh)
    simp [splitOnCharL, hc, ih hr]

theorem not_mem_of_mem_splitOnCharL (sep : Char) :
    ∀ (l : List Char), ∀ seg ∈ splitOnCharL sep l, sep ∉ seg := by
  intro l
  induction l with
  | nil =>
    intro seg hseg
    simp only [splitOnCharL, List.mem_singleton] at hseg
    simp [hseg]
  | cons c rest ih =>
    intro seg hseg
    by_cases hc : c = sep
    · simp only [splitOnCharL, if_pos hc] at hseg
      cases hseg with
      | head => simp
      | tail _ hseg => exact ih seg hseg
    · simp only [splitOnCharL, if_neg hc] at hseg
      cases e : splitOnCharL sep rest with
      | nil => exact absurd e (splitOnCharL_ne_nil sep rest)
      | cons hh tt =>
        rw [e] at hseg
        cases hseg with
        | head =>
          intro hmem
          cases hmem with
          | head => exact hc rfl
          | tail _ hmem => exact ih hh (e ▸ List.mem_cons_self _ _) hmem
        | tail _ hseg => exact ih seg (e ▸ List.mem_cons_of_mem _ hseg)

theorem splitOnCharL_get1 :
    ∀ (l t : List Char), afterFirstCommaL l = some t → ',' ∉ t →
      (splitOnCharL ',' l)[1]? = some t := by
  intro l
  induction l with
  | nil => intro t h _; simp [afterFirstCommaL] at h
  | cons c rest ih =>
    intro t h hn
    by_cases hc : c = ','
    · simp only [afterFirstCommaL, if_pos hc, Option.some.injEq] at h
      subst h
      simp [splitOnCharL, hc, splitOnCharL_of_not_mem ',' rest hn]
    · simp only [afterFirstCommaL, if_neg hc] at h
      have := ih t h hn
      cases e : splitOnCharL ',' rest with
      | nil => exact absurd e (splitOnCharL_ne_nil ',' rest)
      | cons hh tt =>
        rw [e] at this
        simpa [splitOnCharL, hc, e] using this

theorem pySplit_comma_get1 (s t : String) (h : afterFirstComma s = some t)
    (hn : ',' ∉ t.data) : (pySplit ',' s)[1]? = some t := by
  unfold afterFirstComma at h
  rcases Option.map_eq_some'.mp h with ⟨tl, htl, hmk⟩
  have hdata : t.data = tl := by rw [← hmk]
  unfold pySplit
  rw [List.getElem?_map, splitOnCharL_get1 s.data tl htl (hdata ▸ hn), Option.map_some', hmk]

theorem pathName_no_slash (p : String) : '/' ∉ (pathName p).data := by
  unfold pathName
  cases e : (pathComponents p).getLast? with
  | none => simp
  | some n =>
    have hn : n ∈ pathComponents p := List.mem_of_mem_getLast? e
    unfold pathComponents at hn
    have hn' := List.mem_of_mem_filter hn
    rcases List.mem_map.mp hn' with ⟨seg, hseg, hmk⟩
    intro hmem
    exact not_mem_of_mem_splitOnCharL '/' p.data seg hseg (by rw [← hmk] at hmem; exact hmem)

theorem pathStem_no_slash (p : String) : '/' ∉ (pathStem p).data := by
  intro hmem
  apply pathName_no_slash p
  unfold pathStem stemOfName at hmem
  split at hmem
  · split at hmem
    · exact List.mem_of_mem_take hmem
    · exact hmem
  · exact hmem

theorem processImagesAux_append (dir : String) :
    ∀ (imgs : List OCRImage) (ws : List (String × FileData)) (d : List (String × String))
      (ws' : List (String × FileData)) (d' : List (String × String)),
      processImagesAux dir imgs ws d = some (ws', d') → ∃ rest, ws' = ws ++ rest := by
  intro imgs
  induction imgs with
  | nil =>
    intro ws d ws' d' h
    simp only [processImagesAux, Option.some.injEq, Prod.mk.injEq] at h
    exact ⟨[], by simp [← h.1]⟩
  | cons img rest ih =>
    intro ws d ws' d' h
    simp only [processImagesAux] at h
    rcases Option.bind_eq_some.mp h with ⟨payload, e1, h⟩
    rcases Option.bind_eq_some.mp h with ⟨bs, e2, h⟩
    rcases ih _ _ _ _ h with ⟨r, hr⟩
    exact ⟨[(pathJoin dir (img.id ++ ".png"), FileData.bin bs)] ++ r,
      by rw [hr, List.append_assoc]⟩

theorem processImagesAux_dict (dir : String) :
    ∀ (imgs : List OCRImage) (ws : List (String × FileData)) (d : List (String × String))
      (ws' : List (String × FileData)) (d' : List (String × String)),
      processImagesAux dir imgs ws d = some (ws', d') →
      d' = imgs.foldl (fun d img => pyDictInsert d img.id ("images/" ++ img.id ++ ".png")) d := by
  intro imgs
  induction imgs with
  | nil =>
    intro ws d ws' d' h
    simp only [processImagesAux, Option.some.injEq, Prod.mk.injEq] at h
    simp [← h.2]
  | cons img rest ih =>
    intro ws d ws' d' h
    simp only [processImagesAux] at h
    rcases Option.bind_eq_some.mp h with ⟨payload, e1, h⟩
    rcases Option.bind_eq_some.mp h with ⟨bs, e2, h⟩
    simpa using ih _ _ _ _ h

theorem processImagesAux_binWritePaths (dir : String) :
    ∀ (imgs : List OCRImage) (ws : List (String × FileData)) (d : List (String × String))
      (ws' : List (String × FileData)) (d' : List (String × String)),
      processImagesAux dir imgs ws d = some (ws', d') →
      binWritePaths ws' =
        binWritePaths ws ++ imgs.map (fun img => pathJoin dir (img.id ++ ".png")) := by
  intro imgs
  induction imgs with
  | nil =>
    intro ws d ws' d' h
    simp only [processImagesAux, Option.some.injEq, Prod.mk.injEq] at h
    simp [← h.1]
  | cons img rest ih =>
    intro ws d ws' d' h
    simp only [processImagesAux] at h
    rcases Option.bind_eq_some.mp h with ⟨payload, e1, h⟩
    rcases Option.bind_eq_some.mp h with ⟨bs, e2, h⟩
    rw [ih _ _ _ _ h]
    simp [binWritePaths, List.filterMap_append]

theorem processImagesAux_mem (dir : String) :
    ∀ (imgs : List OCRImage) (ws : List (String × FileData)) (d : List (String × String))
      (ws' : List (String × FileData)) (d' : List (String × String)),
      processImagesAux dir imgs ws d = some (ws', d') →
      ∀ img ∈ imgs, ∃ payload bs,
        (pySplit ',' img.image_base64)[1]? = some payload ∧
        b64decode payload = some bs ∧
        (pathJoin dir (img.id ++ ".png"), FileData.bin bs) ∈ ws' := by
  intro imgs
  induction imgs with
  | nil => intro ws d ws' d' _ img hmem; cases hmem
  | cons img0 rest ih =>
    intro ws d ws' d' h img hmem
    simp only [processImagesAux] at h
    rcases Option.bind_eq_some.mp h with ⟨payload, e1, h⟩
    rcases Option.bind_eq_some.mp h with ⟨bs, e2, h⟩
    cases hmem with
    | head =>
      refine ⟨payload, bs, e1, e2, ?_⟩
      rcases processImagesAux_append dir _ _ _ _ _ h with ⟨r, hr⟩
      rw [hr]
      simp
    | tail _ hmem => exact ih _ _ _ _ h img hmem

theorem processPagesAux_append (dir : String) :
    ∀ (pages : List OCRPage) (ws : List (String × FileData)) (mds : List String)
      (ws' : List (String × FileData)) (mds' : List String),
      processPagesAux dir pages ws mds = some (ws', mds') → ∃ rest, ws' = ws ++ rest := by
  intro pages
  induction pages with
  | nil =>
    intro ws mds ws' mds' h
    simp only [processPagesAux, Option.some.injEq, Prod.mk.injEq] at h
    exact ⟨[], by simp [← h.1]⟩
  | cons page rest ih =>
    intro ws mds ws' mds' h
    simp only [processPagesAux] at h
    rcases Option.bind_eq_some.mp h with ⟨pr, e, h⟩
    rcases ih _ _ _ _ h with ⟨r, hr⟩
    exact ⟨pr.1 ++ r, by rw [hr, List.append_assoc]⟩

theorem processPagesAux_mds (dir : String) :
    ∀ (pages : List OCRPage) (ws : List (String × FileData)) (mds : List String)
      (ws' : List (String × FileData)) (mds' : List String),
      processPagesAux dir pages ws mds = some (ws', mds') →
      mds' = mds ++ pages.map
        (fun page => replace_images_in_markdown page.markdown (page_images_dict page.images)) := by
  intro pages
  induction pages with
  | nil =>
    intro ws mds ws' mds' h
    simp only [processPagesAux, Option.some.injEq, Prod.mk.injEq] at h
    simp [← h.2]
  | cons page rest ih =>
    intro ws mds ws' mds' h
    simp only [processPagesAux] at h
    rcases Option.bind_eq_some.mp h with ⟨pr, e, h⟩
    have hdict : pr.2 = page_images_dict page.images := by
      have := processImagesAux_dict dir page.images [] [] pr.1 pr.2 (by rw [e])
      simpa [page_images_dict] using this
    rw [ih _ _ _ _ h, hdict]
    simp

theorem processPagesAux_binWritePaths (dir : String) :
    ∀ (pages : List OCRPage) (ws : List (String × FileData)) (mds : List String)
      (ws' : List (String × FileData)) (mds' : List String),
      processPagesAux dir pages ws mds = some (ws', mds') →
      binWritePaths ws' =
        binWritePaths ws ++
          (allImageIds pages).map (fun i => pathJoin dir (i ++ ".png")) := by
  intro pages
  induction pages with
  | nil =>
    intro ws mds ws' mds' h
    simp only [processPagesAux, Option.some.injEq, Prod.mk.injEq] at h
    simp [← h.1, allImageIds]
  | cons page rest ih =>
    intro ws mds ws' mds' h
    simp only [processPagesAux] at h
    rcases Option.bind_eq_some.mp h with ⟨pr, e, h⟩
    have hpw : binWritePaths pr.1 =
        page.images.map (fun img => pathJoin dir (img.id ++ ".png")) := by
      have := processImagesAux_binWritePaths dir page.images [] [] pr.1 pr.2 (by rw [e])
      simpa [binWritePaths] using this
    rw [ih _ _ _ _ h]
    simp only [allImageIds, List.map_append, binWritePaths, List.filterMap_append,
      ← List.append_assoc]
    congr 1
    rw [← binWritePaths, ← binWritePaths, hpw, List.map_map]
    rfl

theorem processPagesAux_mem (dir : String) :
    ∀ (pages : List OCRPage) (ws : List (String × FileData)) (mds : List String)
      (ws' : List (String × FileData)) (mds' : List String),
      processPagesAux dir pages ws mds = some (ws', mds') →
      ∀ page ∈ pages, ∀ img ∈ page.images, ∃ payload bs,
        (pySplit ',' img.image_base64)[1]? = some payload ∧
        b64decode payload = some bs ∧
        (pathJoin dir (img.id ++ ".png"), FileData.bin bs) ∈ ws' := by
  intro pages
  induction pages with
  | nil => intro ws mds ws' mds' _ page hpage; cases hpage
  | cons page0 rest ih =>
    intro ws mds ws' mds' h page hpage img himg
    simp only [processPagesAux] at h
    rcases Option.bind_eq_some.mp h with ⟨pr, e, h⟩
    cases hpage with
    | head =>
      rcases processImagesAux_mem dir page0.images [] [] pr.1 pr.2 (by rw [e]) img himg with
        ⟨payload, bs, h1, h2, h3⟩
      refine ⟨payload, bs, h1, h2, ?_⟩
      rcases processPagesAux_append dir _ _ _ _ _ h with ⟨r, hr⟩
      rw [hr]
      exact List.mem_append_left _ (List.mem_append_right _ h3)
    | tail _ hpage => exact ih _ _ _ _ h page hpage img himg

theorem processPagesAux_no_images (dir : String) :
    ∀ (pages : List OCRPage), (∀ page ∈ pages, page.images = []) →
      ∀ (ws : List (String × FileData)) (mds : List String),
        processPagesAux dir pages ws mds = some (ws, mds ++ pages.map OCRPage.markdown) := by
  intro pages
  induction pages with
  | nil => intro _ ws mds; simp [processPagesAux]
  | cons page rest ih =>
    intro h ws mds
    have hp : page.images = [] := h page (List.mem_cons_self _ _)
    have hr : ∀ p ∈ rest, p.images = [] := fun p hp' => h p (List.mem_cons_of_mem _ hp')
    simp only [processPagesAux, hp, processImagesAux, Option.some_bind]
    rw [ih hr]
    simp [replace_images_in_markdown]

theorem dedup_length_map {α β : Type} [DecidableEq α] [DecidableEq β] (f : α → β) :
    ∀ (l : List α), (∀ a ∈ l, ∀ b ∈ l, f a = f b → a = b) →
      ((l.map f).dedup).length = (l.dedup).length := by
  intro l
  induction l with
  | nil => intro _; rfl
  | cons a l ih =>
    intro hinj
    have hrest : ∀ x ∈ l, ∀ y ∈ l, f x = f y → x = y := fun x hx y hy =>
      hinj x (List.mem_cons_of_mem _ hx) y (List.mem_cons_of_mem _ hy)
    by_cases hm : a ∈ l
    · rw [List.map_cons, List.dedup_cons_of_mem (List.mem_map_of_mem f hm),
        List.dedup_cons_of_mem hm]
      exact ih hrest
    · have hfm : f a ∉ l.map f := by
        intro hf
        rcases List.mem_map.mp hf with ⟨b, hb, hfb⟩
        exact hm (hinj b (List.mem_cons_of_mem _ hb) a (List.mem_cons_self _ _) hfb ▸ hb)
      rw [List.map_cons, List.dedup_cons_of_not_mem hfm, List.dedup_cons_of_not_mem hm]
      simp [ih hrest]

theorem startsWithSlash_append_png (x : String) (hx : '/' ∉ x.data) :
    startsWithSlash (x ++ ".png") = false := by
  unfold startsWithSlash
  rw [String.data_append]
  cases e : x.data with
  | nil => simp [e]
  | cons c cs =>
    have hc : ¬ c = '/' := fun hc => hx (by rw [e, hc]; exact List.mem_cons_self _ _)
    simp [e, hc]

theorem pathJoin_data_pair (dir x y : String) (hx : startsWithSlash x = false)
    (hy : startsWithSlash y = false) :
    ∃ K, (pathJoin dir x).data = K ++ x.data ∧ (pathJoin dir y).data = K ++ y.data := by
  unfold pathJoin
  rw [hx, hy]
  by_cases hd : dir = "" ∨ endsWithSlash dir = true
  · exact ⟨dir.data, by simp [hd, String.data_append]⟩
  · refine ⟨dir.data ++ ['/'], ?_⟩
    have h1 : (dir ++ "/" ++ x).data = dir.data ++ ['/'] ++ x.data := by
      rw [String.data_append, String.data_append]
    have h2 : (dir ++ "/" ++ y).data = dir.data ++ ['/'] ++ y.data := by
      rw [String.data_append, String.data_append]
    simp [hd, h1, h2]

theorem pathJoin_png_inj (dir a b : String) (ha : '/' ∉ a.data) (hb : '/' ∉ b.data)
    (h : pathJoin dir (a ++ ".png") = pathJoin dir (b ++ ".png")) : a = b := by
  rcases pathJoin_data_pair dir (a ++ ".png") (b ++ ".png")
      (startsWithSlash_append_png a ha) (startsWithSlash_append_png b hb) with ⟨K, h1, h2⟩
  have hdata : K ++ (a ++ ".png").data = K ++ (b ++ ".png").data := by
    rw [← h1, ← h2, h]
  have := List.append_cancel_left hdata
  rw [String.data_append, String.data_append] at this
  exact String.ext (List.append_cancel_right this)

theorem create_output_directory_data (now p1 p2 : String) :
    ∃ K, (create_output_directory now p1).data = K ++ (pathStem p1).data ∧
         (create_output_directory now p2).data = K ++ (pathStem p2).data := by
  have hhead : ∀ q : String, startsWithSlash (now ++ "_" ++ q) = startsWithSlash (now ++ "_") := by
    intro q
    unfold startsWithSlash
    rw [String.data_append]
    cases e : (now ++ "_").data with
    | nil =>
      exfalso
      rw [String.data_append] at e
      simp at e
    | cons c cs => simp
  have hsplit : ∀ q : String, (now ++ "_" ++ q).data = (now ++ "_").data ++ q.data := by
    intro q; rw [String.data_append]
  unfold create_output_directory
  cases e : startsWithSlash (now ++ "_") with
  | true =>
    refine ⟨(now ++ "_").data, ?_, ?_⟩ <;>
      · unfold pathJoin
        rw [hhead, e]
        simp [hsplit]
  | false =>
    rcases pathJoin_data_pair "outputs" (now ++ "_" ++ pathStem p1) (now ++ "_" ++ pathStem p2)
        (by rw [hhead, e]) (by rw [hhead, e]) with ⟨K, h1, h2⟩
    refine ⟨K ++ (now ++ "_").data, ?_, ?_⟩
    · rw [h1, hsplit, List.append_assoc]
    · rw [h2, hsplit, List.append_assoc]

theorem mk_append_nonoverlap (K s1 s2 : List Char) (hne : s1 ≠ s2)
    (h1 : '/' ∉ s1) (h2 : '/' ∉ s2) :
    String.mk (K ++ s1) ≠ String.mk (K ++ s2) ∧
    isPref (K ++ s1 ++ ['/']) (K ++ s2) = false ∧
    isPref (K ++ s2 ++ ['/']) (K ++ s1) = false := by
  refine ⟨?_, ?_, ?_⟩
  · intro h
    injection h with h
    exact hne (List.append_cancel_left h)
  · rw [List.append_assoc, isPref_append_cancel]
    cases e : isPref (s1 ++ ['/']) s2 with
    | false => rfl
    | true => exact absurd (isPref_mem e '/' (by simp)) h2
  · rw [List.append_assoc, isPref_append_cancel]
    cases e : isPref (s2 ++ ['/']) s1 with
    | false => rfl
    | true => exact absurd (isPref_mem e '/' (by simp)) h1

theorem binWritePaths_append (a b : List (String × FileData)) :
    binWritePaths (a ++ b) = binWritePaths a ++ binWritePaths b :=
  List.filterMap_append a b _

/-- The two-page response of the spec's round-trip example: page 1 has text
`A` and owns the embedded image `img1` (with a well-formed one-byte-pair
payload), page 2 has text `B ![img1](img1)` and owns no image. -/
def exampleTwoPages : OCRResponse :=
  { pages := [
      { markdown := "A",
        images := [{ id := "img1", image_base64 := "data:image/png;base64,aGk=" }] },
      { markdown := "B ![img1](img1)", images := [] } ] }

/-- A response whose only page already contains the literal reference
`![g](images/g.png)` in its input text while embedding no image at all. -/
def exampleDangling : OCRResponse :=
  { pages := [{ markdown := "![g](images/g.png)", images := [] }] }

/-- A two-page response with no embedded images. -/
def exampleNoImages : OCRResponse :=
  { pages := [{ markdown := "A", images := [] }, { markdown := "B", images := [] }] }

/-- Claim C1 (amended): for every page of an OCR response, the assembler
rewrites that page's text by exact string substitution using only that
page's own image identifiers (each page's segment of the final document is
`replace_images_in_markdown` of the page text with the dict built from that
page's own images); in particular, for the two-page response where page 1
has text `A` and image `img1` and page 2 has text `B ![img1](img1)`,
no reference is rewritten — `img1` is not among page 2's own images — page
1's text is unchanged, and the final document equals
`A\n\nB ![img1](img1)`. -/
theorem save_ocr_results_per_page_rewrite (resp : OCRResponse) (dir : String)
    (ws : List (String × FileData)) (content : String)
    (h : save_ocr_results resp dir = some (ws, content)) :
    content = pyJoin "\n\n" (resp.pages.map
      (fun page => replace_images_in_markdown page.markdown (page_images_dict page.images))) ∧
    (save_ocr_results exampleTwoPages "out").map Prod.snd = some "A\n\nB ![img1](img1)" := by
  constructor
  · unfold save_ocr_results at h
    rcases Option.bind_eq_some.mp h with ⟨r, e, h⟩
    simp only [Option.some.injEq, Prod.mk.injEq] at h
    rw [← h.2]
    have := processPagesAux_mds (pathJoin dir "images") resp.pages [] [] r.1 r.2 (by rw [e])
    rw [this]
    simp
  · rfl

/-- Witness for C1 at the spec's round-trip response. -/
theorem save_ocr_results_per_page_rewrite_witness :
    ("A\n\nB ![img1](img1)" : String) = pyJoin "\n\n" (exampleTwoPages.pages.map
      (fun page => replace_images_in_markdown page.markdown (page_images_dict page.images))) ∧
    (save_ocr_results exampleTwoPages "out").map Prod.snd = some "A\n\nB ![img1](img1)" :=
  save_ocr_results_per_page_rewrite exampleTwoPages "out"
    [("out/images/img1.png", FileData.bin [104, 105]),
     ("out/complete.md", FileData.text "A\n\nB ![img1](img1)")]
    "A\n\nB ![img1](img1)" rfl

/-- Counterexample for C1 as stated: on the claim's own two-page response
(page 1 owns `img1`), the final document is `A\n\nB ![img1](img1)`, not the
claimed `A\n\nB ![img1](images/img1.png)` — page 2's reference is not
rewritten because the mapping is per page. -/
theorem save_ocr_results_round_trip_counterexample :
    (save_ocr_results exampleTwoPages "out").map Prod.snd = some "A\n\nB ![img1](img1)" ∧
    ("A\n\nB ![img1](img1)" : String) ≠ "A\n\nB ![img1](images/img1.png)" :=
  ⟨rfl, by decide⟩

/-- Claim C2: for every response with no embedded images on any page, the
assembled output is exactly the page texts joined by a blank line, in page
order, with no page dropped or duplicated, and the only write is
`complete.md`. -/
theorem save_ocr_results_no_images_concat (resp : OCRResponse) (dir : String)
    (h : ∀ page ∈ resp.pages, page.images = []) :
    save_ocr_results resp dir =
      some ([(pathJoin dir "complete.md",
        FileData.text (pyJoin "\n\n" (resp.pages.map OCRPage.markdown)))],
        pyJoin "\n\n" (resp.pages.map OCRPage.markdown)) := by
  unfold save_ocr_results
  rw [processPagesAux_no_images (pathJoin dir "images") resp.pages h [] []]
  simp

/-- Witness for C2 on a concrete two-page image-free response. -/
theorem save_ocr_results_no_images_concat_witness :
    save_ocr_results exampleNoImages "out" =
      some ([(pathJoin "out" "complete.md",
        FileData.text (pyJoin "\n\n" (exampleNoImages.pages.map OCRPage.markdown)))],
        pyJoin "\n\n" (exampleNoImages.pages.map OCRPage.markdown)) :=
  save_ocr_results_no_images_concat exampleNoImages "out" (by decide)

/-- Claim C3: for every embedded image of a successfully assembled
response, when the inline payload is a data-URI-style string (it has a
comma, and its payload — the portion after the first comma — contains no
further comma, as base64 data never does), the assembler base64-decodes
exactly that portion and records a write of the decoded bytes to
`output_dir/images/<id>.png`. -/
theorem save_ocr_results_writes_decoded_images (resp : OCRResponse) (dir : String)
    (ws : List (String × FileData)) (content : String)
    (h : save_ocr_results resp dir = some (ws, content))
    (page : OCRPage) (hp : page ∈ resp.pages) (img : OCRImage) (hi : img ∈ page.images)
    (t : String) (hc : afterFirstComma img.image_base64 = some t) (hnc : ',' ∉ t.data) :
    ∃ bs, b64decode t = some bs ∧
      (pathJoin (pathJoin dir "images") (img.id ++ ".png"), FileData.bin bs) ∈ ws := by
  unfold save_ocr_results at h
  rcases Option.bind_eq_some.mp h with ⟨r, e, h⟩
  simp only [Option.some.injEq, Prod.mk.injEq] at h
  rcases processPagesAux_mem (pathJoin dir "images") resp.pages [] [] r.1 r.2 (by rw [e])
      page hp img hi with ⟨payload, bs, h1, h2, h3⟩
  have hpt : payload = t := by
    have hsplit := pySplit_comma_get1 img.image_base64 t hc hnc
    rw [h1] at hsplit
    exact Option.some.inj hsplit
  refine ⟨bs, hpt ▸ h2, ?_⟩
  rw [← h.1]
  exact List.mem_append_left _ h3

/-- Witness for C3 at the round-trip response's embedded image. -/
theorem save_ocr_results_writes_decoded_images_witness :
    ∃ bs, b64decode "aGk=" = some bs ∧
      (("out/images/img1.png" : String), FileData.bin bs) ∈
        [(("out/images/img1.png" : String), FileData.bin [104, 105]),
         (("out/complete.md" : String), FileData.text "A\n\nB ![img1](img1)")] :=
  save_ocr_results_writes_decoded_images exampleTwoPages "out"
    [("out/images/img1.png", FileData.bin [104, 105]),
     ("out/complete.md", FileData.text "A\n\nB ![img1](img1)")]
    "A\n\nB ![img1](img1)" rfl
    { markdown := "A",
      images := [{ id := "img1", image_base64 := "data:image/png;base64,aGk=" }] }
    (by decide)
    { id := "img1", image_base64 := "data:image/png;base64,aGk=" }
    (by decide) "aGk=" rfl (by decide)

/-- Claim C4 (amended): after a successful assembly whose image identifiers
are plain file names (no `/`, so each write lands directly under
`images/`), the number of distinct image-file paths written equals the
number of distinct image identifiers across all pages, and every image
identifier's rewrite target `images/<id>.png` is among the written files.
(A reference already present verbatim in a page's input text is not
covered: it can dangle, see the counterexample.) -/
theorem save_ocr_results_image_file_count (resp : OCRResponse) (dir : String)
    (ws : List (String × FileData)) (content : String)
    (h : save_ocr_results resp dir = some (ws, content))
    (hids : ∀ i ∈ allImageIds resp.pages, '/' ∉ i.data) :
    (binWritePaths ws).dedup.length = (allImageIds resp.pages).dedup.length ∧
    ∀ i ∈ allImageIds resp.pages,
      pathJoin (pathJoin dir "images") (i ++ ".png") ∈ binWritePaths ws := by
  unfold save_ocr_results at h
  rcases Option.bind_eq_some.mp h with ⟨r, e, h⟩
  simp only [Option.some.injEq, Prod.mk.injEq] at h
  have hbin : binWritePaths ws =
      (allImageIds resp.pages).map (fun i => pathJoin (pathJoin dir "images") (i ++ ".png")) := by
    have hpp := processPagesAux_binWritePaths (pathJoin dir "images") resp.pages [] [] r.1 r.2
      (by rw [e])
    rw [← h.1, binWritePaths_append, hpp]
    simp [binWritePaths]
  constructor
  · rw [hbin]
    exact dedup_length_map _ (allImageIds resp.pages)
      (fun a ha b hb hf => pathJoin_png_inj (pathJoin dir "images") a b (hids a ha) (hids b hb) hf)
  · intro i hi
    rw [hbin]
    exact List.mem_map_of_mem _ hi

/-- Witness for C4 at the round-trip response. -/
theorem save_ocr_results_image_file_count_witness :
    (binWritePaths [(("out/images/img1.png" : String), FileData.bin [104, 105]),
      (("out/complete.md" : String), FileData.text "A\n\nB ![img1](img1)")]).dedup.length =
      (allImageIds exampleTwoPages.pages).dedup.length ∧
    ∀ i ∈ allImageIds exampleTwoPages.pages,
      pathJoin (pathJoin "out" "images") (i ++ ".png") ∈
        binWritePaths [(("out/images/img1.png" : String), FileData.bin [104, 105]),
          (("out/complete.md" : String), FileData.text "A\n\nB ![img1](img1)")] :=
  save_ocr_results_image_file_count exampleTwoPages "out"
    [("out/images/img1.png", FileData.bin [104, 105]),
     ("out/complete.md", FileData.text "A\n\nB ![img1](img1)")]
    "A\n\nB ![img1](img1)" rfl (by decide)

/-- Counterexample for C4 as stated: a page whose input text already
contains the literal reference `![g](images/g.png)` but embeds no image
assembles successfully with that reference present in the final text while
no image file at all is written — a dangling reference. -/
theorem save_ocr_results_dangling_reference_counterexample :
    (save_ocr_results exampleDangling "out").map Prod.snd = some "![g](images/g.png)" ∧
    occursIn "![g](images/g.png)" "![g](images/g.png)" = true ∧
    (save_ocr_results exampleDangling "out").map (fun r => binWritePaths r.1) = some [] :=
  ⟨rfl, rfl, rfl⟩

/-- Claim C5: classification returns Image exactly when the (lowercased)
extension is in the fixed supported set and the content probe succeeds;
every other input — unsupported extension, misnamed non-image content, or
an unreadable file (the probe oracle already absorbs every exception into
`false`) — is classified as a document, and classification is a total
Boolean function, never an exception. -/
theorem is_image_file_iff_ext_and_content (sniff : String → Bool) (p : String) :
    is_image_file sniff p = true ↔
      (splitextExt (pyLower p) ∈ SUPPORTED_IMAGE_EXTENSIONS ∧ sniff p = true) := by
  unfold is_image_file
  by_cases hc : splitextExt (pyLower p) ∈ SUPPORTED_IMAGE_EXTENSIONS
  · simp [List.contains, List.elem_iff, hc]
  · simp [List.contains, List.elem_iff, hc]

/-- Claim C6: a missing document path makes `process_pdf` fail with the
`FileNotFoundError` message carrying that path, with an empty event trace —
no upload, signed-URL request, OCR submission, or write is attempted. -/
theorem process_pdf_missing_file (fs : FS) (svc : Svc) (pdf_path output_dir : String)
    (h : fs.isFile pdf_path = false) :
    process_pdf fs svc pdf_path output_dir =
      ([], Except.error (PyErr.fileNotFound ("文件不存在: " ++ pdf_path))) := by
  unfold process_pdf
  rw [h]
  simp

/-- A filesystem with no files, for the C6 witness. -/
def emptyFS : FS := { isFile := fun _ => false, readBytes := fun _ => [] }

/-- A remote service that answers every call successfully. -/
def okSvc : Svc :=
  { upload := fun _ _ => Except.ok "file-1",
    getSignedUrl := fun _ _ => Except.ok "https://signed",
    ocrProcess := fun _ _ _ => Except.ok exampleTwoPages }

/-- Witness for C6. -/
theorem process_pdf_missing_file_witness :
    process_pdf emptyFS okSvc "nope.pdf" "out" =
      ([], Except.error (PyErr.fileNotFound ("文件不存在: " ++ "nope.pdf"))) :=
  process_pdf_missing_file emptyFS okSvc "nope.pdf" "out" rfl

/-- Claim C7: for an existing document, the remote calls made are exactly,
in order: upload of the document's raw bytes under its base filename (the
path's stem) with purpose `ocr`; a signed-URL request for the returned file
id with expiry 1 (hour); and an OCR job referencing the signed URL, the
fixed model `mistral-ocr-latest`, and the inline-base64-images flag. -/
theorem process_pdf_remote_call_sequence (fs : FS) (svc : Svc) (pdf_path output_dir : String)
    (fileId url : String) (resp : OCRResponse)
    (hf : fs.isFile pdf_path = true)
    (hu : svc.upload (pathStem pdf_path) (fs.readBytes pdf_path) = Except.ok fileId)
    (hs : svc.getSignedUrl fileId 1 = Except.ok url)
    (ho : svc.ocrProcess url "mistral-ocr-latest" true = Except.ok resp) :
    (process_pdf fs svc pdf_path output_dir).1.filter isNetCall =
      [Event.upload (pathStem pdf_path) (fs.readBytes pdf_path) "ocr",
       Event.signedUrl fileId 1,
       Event.ocr url "mistral-ocr-latest" true] := by
  have hwrites : ∀ (l : List (String × FileData)),
      (l.map (fun w => Event.fileWrite w.1 w.2)).filter isNetCall = [] := by
    intro l
    induction l with
    | nil => rfl
    | cons w rest ih => simp [isNetCall, ih]
  unfold process_pdf
  rw [hf]
  simp only [Bool.true_eq_false, if_false, hu, hs, ho]
  cases esave : save_ocr_results resp output_dir with
  | none => simp [isNetCall]
  | some r => simp [isNetCall, List.filter_append, hwrites]

/-- A filesystem holding one file `doc.pdf`, for the client witnesses. -/
def docFS : FS := { isFile := fun p => p = "doc.pdf", readBytes := fun _ => [1, 2] }

/-- Witness for C7. -/
theorem process_pdf_remote_call_sequence_witness :
    (process_pdf docFS okSvc "doc.pdf" "out").1.filter isNetCall =
      [Event.upload (pathStem "doc.pdf") (docFS.readBytes "doc.pdf") "ocr",
       Event.signedUrl "file-1" 1,
       Event.ocr "https://signed" "mistral-ocr-latest" true] :=
  process_pdf_remote_call_sequence docFS okSvc "doc.pdf" "out" "file-1" "https://signed"
    exampleTwoPages (by decide) rfl rfl rfl

/-- Claim C8: the run directory is `outputs` joined with the
second-resolution timestamp and the source file's stem; two runs in the
same second with different stems yield distinct, non-nested directories
(neither extended by `/` is a prefix of the other), while the same stem in
the same second collides with the identical directory. -/
theorem create_output_directory_stems (now p1 p2 : String) :
    (pathStem p1 ≠ pathStem p2 →
      create_output_directory now p1 ≠ create_output_directory now p2 ∧
      isPref ((create_output_directory now p1).data ++ ['/'])
        (create_output_directory now p2).data = false ∧
      isPref ((create_output_directory now p2).data ++ ['/'])
        (create_output_directory now p1).data = false) ∧
    (pathStem p1 = pathStem p2 →
      create_output_directory now p1 = create_output_directory now p2) := by
  constructor
  · intro hne
    rcases create_output_directory_data now p1 p2 with ⟨K, h1, h2⟩
    have hne' : (pathStem p1).data ≠ (pathStem p2).data := fun hd => hne (String.ext hd)
    have hmain := mk_append_nonoverlap K (pathStem p1).data (pathStem p2).data hne'
      (pathStem_no_slash p1) (pathStem_no_slash p2)
    refine ⟨?_, ?_, ?_⟩
    · rw [String.ext h1, String.ext h2]
      exact hmain.1
    · rw [h1, h2]
      exact hmain.2.1
    · rw [h1, h2]
      exact hmain.2.2
  · intro heq
    unfold create_output_directory
    rw [heq]

/-- Witness for C8 with stems `a` and `b` in the same second. -/
theorem create_output_directory_stems_witness :
    create_output_directory "20240101_120000" "a.pdf" ≠
      create_output_directory "20240101_120000" "b.pdf" ∧
    isPref ((create_output_directory "20240101_120000" "a.pdf").data ++ ['/'])
      (create_output_directory "20240101_120000" "b.pdf").data = false ∧
    isPref ((create_output_directory "20240101_120000" "b.pdf").data ++ ['/'])
      (create_output_directory "20240101_120000" "a.pdf").data = false :=
  (create_output_directory_stems "20240101_120000" "a.pdf" "b.pdf").1 (by decide)

/-- Claim C9: when the remote service fails at the OCR job-submission step,
the error value propagates unmodified as the run's result, and the event
trace contains no file write at all — in particular nothing under `images/`
and no `complete.md`. -/
theorem process_pdf_ocr_failure_no_writes (fs : FS) (svc : Svc) (pdf_path output_dir : String)
    (fileId url : String) (e : PyErr)
    (hf : fs.isFile pdf_path = true)
    (hu : svc.upload (pathStem pdf_path) (fs.readBytes pdf_path) = Except.ok fileId)
    (hs : svc.getSignedUrl fileId 1 = Except.ok url)
    (ho : svc.ocrProcess url "mistral-ocr-latest" true = Except.error e) :
    (process_pdf fs svc pdf_path output_dir).2 = Except.error e ∧
    (process_pdf fs svc pdf_path output_dir).1.filter isWriteEvent = [] := by
  unfold process_pdf
  rw [hf]
  simp only [Bool.true_eq_false, if_false, hu, hs, ho]
  simp [isWriteEvent]

/-- A remote service failing at the OCR job-submission step. -/
def failingOcrSvc : Svc :=
  { upload := fun _ _ => Except.ok "file-1",
    getSignedUrl := fun _ _ => Except.ok "https://signed",
    ocrProcess := fun _ _ _ =>
      Except.error (PyErr.remoteServiceError "job submission failed") }

/-- Witness for C9. -/
theorem process_pdf_ocr_failure_no_writes_witness :
    (process_pdf docFS failingOcrSvc "doc.pdf" "out").2 =
      Except.error (PyErr.remoteServiceError "job submission failed") ∧
    (process_pdf docFS failingOcrSvc "doc.pdf" "out").1.filter isWriteEvent = [] :=
  process_pdf_ocr_failure_no_writes docFS failingOcrSvc "doc.pdf" "out" "file-1" "https://signed"
    (PyErr.remoteServiceError "job submission failed") (by decide) rfl rfl rfl

/-- Claim C10: the classifier lowercases the entire path before extracting
the extension (`is_image_file` equals the supported-set test of the
lowercased path's extension combined with the content probe), so two paths
equal up to letter case and with the same content probe — e.g. `.PNG` or
`.Jpg` against `.png` or `.jpg` — classify identically. -/
theorem is_image_file_case_insensitive (sniff : String → Bool) (p1 p2 : String)
    (hl : pyLower p1 = pyLower p2) (hs : sniff p1 = sniff p2) :
    is_image_file sniff p1 =
      (SUPPORTED_IMAGE_EXTENSIONS.contains (splitextExt (pyLower p1)) && sniff p1) ∧
    is_image_file sniff p1 = is_image_file sniff p2 := by
  constructor
  · unfold is_image_file
    by_cases hc : SUPPORTED_IMAGE_EXTENSIONS.contains (splitextExt (pyLower p1)) = true
    · simp [hc]
    · simp [Bool.of_not_eq_true hc]
  · unfold is_image_file
    rw [hl, hs]

/-- Witness for C10 on `.PNG` versus `.png`. -/
theorem is_image_file_case_insensitive_witness :
    is_image_file (fun _ => true) "photo.PNG" =
      (SUPPORTED_IMAGE_EXTENSIONS.contains (splitextExt (pyLower "photo.PNG")) &&
        (fun _ : String => true) "photo.PNG") ∧
    is_image_file (fun _ => true) "photo.PNG" = is_image_file (fun _ => true) "photo.png" :=
  is_image_file_case_insensitive (fun _ => true) "photo.PNG" "photo.png" (by decide) rfl

end MistralOCR
